import Mathlib

/-!
Shallow embedding of the holo-archived video gallery: the catalog filter
(both the fuller App-level variant of `useFilteredVideos` and the title-only
hook variant), the tag-vocabulary derivations (`UniqueTags` and the
`ArchiveHome` alternative), and the playback attach/teardown lifecycle of the
`VideoPlayer` component.

Strings are modelled as lists of Unicode code points (`List Nat`); the
JavaScript operations the code uses (`trim`, `toLowerCase` on the ASCII
range, `includes` on strings and on arrays, `join`, `sort`) are given
explicit executable definitions.
-/

namespace Holo

/-- Strings as lists of code points. -/
abbrev Str : Type := List Nat

/-- Code points of a string literal, for concrete test data. -/
def strLit (s : String) : Str := s.data.map Char.toNat

/-- JavaScript `toLowerCase`, restricted to the ASCII letters that occur in
this catalog: uppercase A-Z (65-90) maps to a-z (97-122). -/
def lowerC (c : Nat) : Nat := if 65 ≤ c ∧ c ≤ 90 then c + 32 else c

/-- Case-fold a whole string. -/
def toLowerStr (s : Str) : Str := s.map lowerC

/-- Whitespace code points removed by JavaScript `trim`. -/
def isWsC (c : Nat) : Bool :=
  c == 9 || c == 10 || c == 11 || c == 12 || c == 13 || c == 32 || c == 160 || c == 65279

/-- JavaScript `String.prototype.trim`: drop leading and trailing whitespace. -/
def trimStr (s : Str) : Str :=
  (((s.dropWhile isWsC).reverse).dropWhile isWsC).reverse

/-- First argument occurs at the very start of the second. -/
def isPre : Str → Str → Bool
  | [], _ => true
  | _ :: _, [] => false
  | p :: ps, c :: cs => p == c && isPre ps cs

/-- JavaScript `String.prototype.includes`: the pattern occurs as a
contiguous substring. -/
def hasSub (pat : Str) : Str → Bool
  | [] => isPre pat []
  | c :: cs => isPre pat (c :: cs) || hasSub pat cs

/-- JavaScript `Array.prototype.includes` on an array of strings. -/
def hasStr (l : List Str) (t : Str) : Bool := l.any (fun s => s == t)

/-- JavaScript `Array.prototype.join` with a single-space separator. -/
def joinSp : List Str → Str
  | [] => []
  | [t] => t
  | t :: ts => t ++ 32 :: joinSp ts

-- ---------------------------------------------------------------------
-- Data model (App.tsx)
-- ---------------------------------------------------------------------

/-- `type: "mp4" | "hls"` of a `VideoSource`. -/
inductive SourceType : Type
  | mp4 : SourceType
  | hls : SourceType
deriving DecidableEq

/-- `VideoSource = { label, type, src }`. -/
structure VideoSource : Type where
  label : Str
  type : SourceType
  src : Str
deriving DecidableEq

/-- `VideoItem` of the fuller App variant; optional fields are `Option`. -/
structure VideoItem : Type where
  id : Str
  title : Str
  description : Option Str
  date : Option Str
  duration : Option Str
  tags : Option (List Str)
  thumbnail : Option Str
  sources : List VideoSource
deriving DecidableEq

/-- The item type of the title-only hook variant:
`{ id, title, src, tags? }`. -/
structure HookItem : Type where
  id : Str
  title : Str
  src : Str
  tags : Option (List Str)
deriving DecidableEq

-- ---------------------------------------------------------------------
-- Catalog filter, fuller App-level variant (App.tsx, useFilteredVideos)
-- ---------------------------------------------------------------------

/-- `const query = q.trim().toLowerCase()`. -/
def normQuery (q : Str) : Str := toLowerStr (trimStr q)

/-- `[v.title, v.description, v.tags?.join(" ")].filter(Boolean)`: the
candidate text fields, with absent fields and empty strings (falsy) removed. -/
def searchText (v : VideoItem) : List Str :=
  ([some v.title, v.description, v.tags.map joinSp].filterMap id).filter
    (fun s => !s.isEmpty)

/-- `.some((txt) => txt.toLowerCase().includes(query))`. -/
def matchesSearch (nq : Str) (v : VideoItem) : Bool :=
  (searchText v).any (fun txt => hasSub nq (toLowerStr txt))

/-- `v.tags?.includes(t)`: `undefined` (no tags) is falsy. -/
def hasTag (v : VideoItem) (t : Str) : Bool :=
  match v.tags with
  | none => false
  | some ts => hasStr ts t

/-- The text stage: `!query ? all : all.filter(...)`. -/
def bySearchL (all : List VideoItem) (q : Str) : List VideoItem :=
  if (normQuery q).isEmpty then all else all.filter (matchesSearch (normQuery q))

/-- `useFilteredVideos` from App.tsx: text stage then tag stage; an
empty-string `activeTag` is falsy in JavaScript and disables the tag stage. -/
def appFilter (all : List VideoItem) (q : Str) (activeTag : Option Str) :
    List VideoItem :=
  match activeTag with
  | none => bySearchL all q
  | some t =>
    if t.isEmpty then bySearchL all q
    else (bySearchL all q).filter (fun v => hasTag v t)

-- ---------------------------------------------------------------------
-- Catalog filter, title-only hook variant (hooks/useFilteredVideos.ts)
-- ---------------------------------------------------------------------

/-- Tag membership for the hook item type. -/
def hookHasTag (v : HookItem) (t : Str) : Bool :=
  match v.tags with
  | none => false
  | some ts => hasStr ts t

/-- The hook's text stage: `if (query.trim()) { const lower =
query.toLowerCase(); ... }` — note the guard trims but the matcher uses the
untrimmed query. -/
def hookSearch (videos : List HookItem) (q : Str) : List HookItem :=
  if (trimStr q).isEmpty then videos
  else videos.filter (fun v => hasSub (toLowerStr q) (toLowerStr v.title))

/-- `useFilteredVideos` from hooks/useFilteredVideos.ts. -/
def hookFilter (videos : List HookItem) (q : Str) (activeTag : Option Str) :
    List HookItem :=
  match activeTag with
  | none => hookSearch videos q
  | some t =>
    if t.isEmpty then hookSearch videos q
    else (hookSearch videos q).filter (fun v => hookHasTag v t)

-- ---------------------------------------------------------------------
-- Tag vocabulary derivations
-- ---------------------------------------------------------------------

/-- `Set.add` in insertion order: append only if absent. -/
def insertTag (acc : List Str) (t : Str) : List Str :=
  if hasStr acc t then acc else acc ++ [t]

/-- `videos.forEach((v) => v.tags?.forEach((t) => set.add(t)))` followed by
`Array.from(set)`: insertion-ordered deduplicated tag list. -/
def tagList (videos : List VideoItem) : List Str :=
  videos.foldl (fun acc v => (v.tags.getD []).foldl insertTag acc) []

/-- Lexicographic comparison of code-point strings, as JavaScript default
`sort` compares strings. -/
def strLtb : Str → Str → Bool
  | [], [] => false
  | [], _ :: _ => true
  | _ :: _, [] => false
  | a :: as, b :: bs => if a < b then true else if b < a then false else strLtb as bs

/-- Insert into an already-sorted list. -/
def insSorted (x : Str) : List Str → List Str
  | [] => [x]
  | y :: ys => if strLtb x y then x :: y :: ys else y :: insSorted x ys

/-- `Array.prototype.sort()` on a deduplicated string array: the unique
strictly-sorted reordering, realised by insertion sort. -/
def sortStr (l : List Str) : List Str := l.foldr insSorted []

/-- `UniqueTags` in App.tsx: `Array.from(set).sort()`. -/
def uniqueTags (videos : List VideoItem) : List Str := sortStr (tagList videos)

/-- The alternative derivation in the second `ArchiveHome`:
`Array.from(new Set(videos.flatMap(v => v.tags || [])))` — deduplicated in
first-occurrence order, with no sort. -/
def hookTags (videos : List HookItem) : List Str :=
  (videos.flatMap (fun v => v.tags.getD [])).foldl insertTag []

-- ---------------------------------------------------------------------
-- Playback lifecycle (App.tsx, VideoPlayer)
-- ---------------------------------------------------------------------

/-- Browser capabilities probed by the effect: `Hls.isSupported()` and
`el.canPlayType("application/vnd.apple.mpegurl")`. -/
structure Env : Type where
  hlsSupported : Bool
  nativeHls : Bool
deriving DecidableEq

/-- Observable state of one `VideoPlayer`: the `active` source state, the
`canPlay` readiness flag, the attached streaming-client load target (if an
`Hls` instance is alive), the directly assigned element `src`, and whether a
`MANIFEST_PARSED` callback is still pending. -/
structure PlayerState : Type where
  active : VideoSource
  canPlay : Bool
  hlsAttached : Option Str
  elSrc : Option Str
  pendingManifest : Bool
deriving DecidableEq

/-- Placeholder for `video.sources[0]` on an empty source list. -/
def fallbackSource : VideoSource := ⟨[], SourceType.mp4, []⟩

/-- Component creation: `useState(video.sources[0])`, `useState(false)`,
nothing attached yet (the effect has not run). -/
def initPlayer (video : VideoItem) : PlayerState :=
  ⟨video.sources.headD fallbackSource, false, none, none, false⟩

/-- The body of the attach effect, for the current `active` source. The
hls-supported branch does not touch `canPlay`: it is only set later by the
`MANIFEST_PARSED` callback. -/
def attachEffect (env : Env) (st : PlayerState) : PlayerState :=
  match st.active.type with
  | SourceType.hls =>
    if env.hlsSupported then
      { st with hlsAttached := some st.active.src, pendingManifest := true }
    else if env.nativeHls then
      { st with elSrc := some st.active.src, canPlay := true }
    else
      { st with canPlay := false }
  | SourceType.mp4 => { st with elSrc := some st.active.src, canPlay := true }

/-- The effect cleanup: `hls.destroy()` (which also cancels its pending
manifest callback), `el.pause()`, `el.removeAttribute("src")`, `el.load()`. -/
def cleanupEffect (st : PlayerState) : PlayerState :=
  { st with hlsAttached := none, elSrc := none, pendingManifest := false }

/-- Mounting the player: initial state, then the first effect run. -/
def openPlayer (env : Env) (video : VideoItem) : PlayerState :=
  attachEffect env (initPlayer video)

/-- `setActive(s)`: the effect re-runs — cleanup of the previous attachment,
then attach of the new source. -/
def selectSource (env : Env) (s : VideoSource) (st : PlayerState) : PlayerState :=
  attachEffect env (cleanupEffect { st with active := s })

/-- The asynchronous `MANIFEST_PARSED` signal: only a live pending client
can deliver it. -/
def manifestParsed (st : PlayerState) : PlayerState :=
  if st.pendingManifest then { st with canPlay := true, pendingManifest := false }
  else st

/-- Unmount: the final effect cleanup. -/
def closePlayer (st : PlayerState) : PlayerState := cleanupEffect st

/-- States a mounted player can reach: the mount itself, source selections
offered by `SourceSelector` (which enumerates `video.sources`), and manifest
callbacks. -/
inductive Reachable (env : Env) (video : VideoItem) : PlayerState → Prop
  | init : Reachable env video (openPlayer env video)
  | select (s : VideoSource) (st : PlayerState) : s ∈ video.sources →
      Reachable env video st → Reachable env video (selectSource env s st)
  | parsed (st : PlayerState) : Reachable env video st →
      Reachable env video (manifestParsed st)

/-- Number of playback resources currently attached. -/
def attachedCount (st : PlayerState) : Nat :=
  (if st.hlsAttached.isSome then 1 else 0) + (if st.elSrc.isSome then 1 else 0)

-- ---------------------------------------------------------------------
-- String lemmas: trim, case folding, substring search
-- ---------------------------------------------------------------------

theorem dropWhile_idem (p : Nat → Bool) (l : Str) :
    (l.dropWhile p).dropWhile p = l.dropWhile p := by
  induction l with
  | nil => rfl
  | cons c t ih =>
    by_cases h : p c = true
    · simp [List.dropWhile_cons, h, ih]
    · simp [List.dropWhile_cons, h]

theorem head_dropWhile_false (p : Nat → Bool) :
    ∀ (s : Str) (c : Nat) (t : Str), s.dropWhile p = c :: t → p c = false := by
  intro s
  induction s with
  | nil => intro c t h; simp at h
  | cons x xs ih =>
    intro c t h
    by_cases hx : p x = true
    · rw [List.dropWhile_cons, if_pos hx] at h
      exact ih c t h
    · rw [List.dropWhile_cons, if_neg hx] at h
      cases h
      simp only [Bool.not_eq_true] at hx
      exact hx

theorem dropWhile_append_last (p : Nat → Bool) (c : Nat) (h : p c = false) :
    ∀ xs : Str, (xs ++ [c]).dropWhile p = xs.dropWhile p ++ [c] := by
  intro xs
  induction xs with
  | nil => simp [List.dropWhile_cons, h]
  | cons x t ih =>
    by_cases hx : p x = true
    · simp [List.dropWhile_cons, hx, ih]
    · simp [List.dropWhile_cons, hx]

theorem trim_no_trailing (s : Str) :
    ((trimStr s).reverse).dropWhile isWsC = (trimStr s).reverse := by
  unfold trimStr
  rw [List.reverse_reverse]
  exact dropWhile_idem isWsC _

theorem trim_no_leading (s : Str) :
    (trimStr s).dropWhile isWsC = trimStr s := by
  unfold trimStr
  rcases hd : s.dropWhile isWsC with _ | ⟨c, t⟩
  · simp
  · have hc : isWsC c = false := head_dropWhile_false isWsC s c t hd
    rw [List.reverse_cons, dropWhile_append_last isWsC c hc t.reverse,
        List.reverse_append]
    simp [List.dropWhile_cons, hc]

theorem trimStr_idem (s : Str) : trimStr (trimStr s) = trimStr s := by
  show ((((trimStr s).dropWhile isWsC).reverse).dropWhile isWsC).reverse = trimStr s
  rw [trim_no_leading, trim_no_trailing, List.reverse_reverse]

theorem isWsC_lowerC (c : Nat) : isWsC (lowerC c) = isWsC c := by
  unfold lowerC
  by_cases h : 65 ≤ c ∧ c ≤ 90
  · rw [if_pos h]
    have h1 : isWsC (c + 32) = false := by
      unfold isWsC
      simp only [Bool.or_eq_false_iff, beq_eq_false_iff_ne, ne_eq]
      omega
    have h2 : isWsC c = false := by
      unfold isWsC
      simp only [Bool.or_eq_false_iff, beq_eq_false_iff_ne, ne_eq]
      omega
    rw [h1, h2]
  · rw [if_neg h]

theorem map_lower_dropWhile (l : Str) :
    (l.map lowerC).dropWhile isWsC = (l.dropWhile isWsC).map lowerC := by
  rw [List.dropWhile_map]
  have h : (isWsC ∘ lowerC) = isWsC := funext isWsC_lowerC
  rw [h]

theorem toLowerStr_trimStr (s : Str) :
    toLowerStr (trimStr s) = trimStr (toLowerStr s) := by
  unfold trimStr toLowerStr
  rw [List.map_reverse, ← map_lower_dropWhile, List.map_reverse,
      ← map_lower_dropWhile]

theorem isEmpty_toLowerStr (s : Str) : (toLowerStr s).isEmpty = s.isEmpty := by
  cases s <;> simp [toLowerStr]

theorem hasSub_nil_left (s : Str) : hasSub [] s = true := by
  cases s <;> rfl

theorem hasSub_nil_right {pat : Str} (h : pat ≠ []) : hasSub pat [] = false := by
  cases pat with
  | nil => exact absurd rfl h
  | cons p ps => rfl

theorem hasStr_iff (l : List Str) (t : Str) : hasStr l t = true ↔ t ∈ l := by
  simp [hasStr, List.any_eq_true, beq_iff_eq]

-- ---------------------------------------------------------------------
-- Query normalization lemmas (claim C2 support)
-- ---------------------------------------------------------------------

theorem normQuery_trim (q : Str) : normQuery (trimStr q) = normQuery q := by
  unfold normQuery
  rw [trimStr_idem]

theorem normQuery_lower_congr {q q2 : Str} (h : toLowerStr q = toLowerStr q2) :
    normQuery q = normQuery q2 := by
  unfold normQuery
  rw [toLowerStr_trimStr, toLowerStr_trimStr, h]

theorem appFilter_query_congr {q q2 : Str} (h : normQuery q = normQuery q2)
    (all : List VideoItem) (tag : Option Str) :
    appFilter all q tag = appFilter all q2 tag := by
  unfold appFilter bySearchL
  rw [h]

theorem hookFilter_lower_congr {q q2 : Str} (h : toLowerStr q = toLowerStr q2)
    (videos : List HookItem) (tag : Option Str) :
    hookFilter videos q tag = hookFilter videos q2 tag := by
  have h3 : toLowerStr (trimStr q) = toLowerStr (trimStr q2) := by
    rw [toLowerStr_trimStr, toLowerStr_trimStr, h]
  have hemp : (trimStr q).isEmpty = (trimStr q2).isEmpty := by
    rw [← isEmpty_toLowerStr (trimStr q), h3, isEmpty_toLowerStr]
  unfold hookFilter hookSearch
  rw [hemp, h]

-- ---------------------------------------------------------------------
-- Text stage lemmas (claim C1 support)
-- ---------------------------------------------------------------------

/-- The matcher as the spec phrases it: the case-folded query is a substring
of the title, or of the description, or of the tags joined as text. Stated
for comparison with the code's `matchesSearch`. -/
def specMatches (nq : Str) (v : VideoItem) : Bool :=
  hasSub nq (toLowerStr v.title) ||
  (match v.description with
   | none => false
   | some d => hasSub nq (toLowerStr d)) ||
  (match v.tags with
   | none => false
   | some ts => hasSub nq (toLowerStr (joinSp ts)))

theorem matches_field {nq : Str} (h : nq ≠ []) (s : Str) :
    (!s.isEmpty && hasSub nq (toLowerStr s)) = hasSub nq (toLowerStr s) := by
  cases s with
  | nil => simp [toLowerStr, hasSub_nil_right h]
  | cons c t => rfl

theorem matchesSearch_eq_spec {nq : Str} (h : nq ≠ []) (v : VideoItem) :
    matchesSearch nq v = specMatches nq v := by
  unfold matchesSearch searchText specMatches
  rcases v with ⟨vid, title, desc, date, dur, tags, thumb, srcs⟩
  cases desc <;> cases tags <;>
    simp only [Option.map_some', Option.map_none', List.filterMap_cons,
      List.filterMap_nil, id_eq, List.any_filter, List.any_cons, List.any_nil,
      matches_field h, Bool.or_false, Bool.false_or, Bool.or_assoc]

theorem mem_bySearch_of_mem_appFilter {all : List VideoItem} {q : Str}
    {tag : Option Str} {v : VideoItem} (h : v ∈ appFilter all q tag) :
    v ∈ bySearchL all q := by
  unfold appFilter at h
  split at h
  · exact h
  · split at h
    · exact h
    · exact (List.mem_filter.mp h).1

-- ---------------------------------------------------------------------
-- Tag vocabulary lemmas (claim C5 support)
-- ---------------------------------------------------------------------

theorem mem_insertTag (acc : List Str) (t z : Str) :
    z ∈ insertTag acc t ↔ z ∈ acc ∨ z = t := by
  unfold insertTag
  by_cases h : hasStr acc t = true
  · rw [if_pos h]
    constructor
    · exact Or.inl
    · rintro (hz | rfl)
      · exact hz
      · exact (hasStr_iff acc z).mp h
  · rw [if_neg h]
    simp [List.mem_append]

theorem nodup_insertTag (acc : List Str) (t : Str) (h : acc.Nodup) :
    (insertTag acc t).Nodup := by
  unfold insertTag
  by_cases hc : hasStr acc t = true
  · rwa [if_pos hc]
  · rw [if_neg hc, List.nodup_append]
    refine ⟨h, List.nodup_singleton t, ?_⟩
    intro x hx hxt
    rw [List.mem_singleton] at hxt
    subst hxt
    exact hc ((hasStr_iff acc x).mpr hx)

theorem mem_foldl_insertTag (ts : List Str) :
    ∀ (acc : List Str) (z : Str),
      z ∈ ts.foldl insertTag acc ↔ z ∈ acc ∨ z ∈ ts := by
  induction ts with
  | nil => intro acc z; simp
  | cons t ts ih =>
    intro acc z
    rw [List.foldl_cons, ih, mem_insertTag]
    simp [List.mem_cons]
    tauto

theorem nodup_foldl_insertTag (ts : List Str) :
    ∀ acc : List Str, acc.Nodup → (ts.foldl insertTag acc).Nodup := by
  induction ts with
  | nil => intro acc h; exact h
  | cons t ts ih => intro acc h; exact ih _ (nodup_insertTag acc t h)

theorem mem_tagList_aux (vs : List VideoItem) :
    ∀ (acc : List Str) (z : Str),
      z ∈ vs.foldl (fun acc v => (v.tags.getD []).foldl insertTag acc) acc ↔
        z ∈ acc ∨ ∃ v ∈ vs, z ∈ v.tags.getD [] := by
  induction vs with
  | nil => intro acc z; simp
  | cons v vs ih =>
    intro acc z
    rw [List.foldl_cons, ih, mem_foldl_insertTag]
    simp [List.mem_cons]
    tauto

theorem mem_tagList (vs : List VideoItem) (z : Str) :
    z ∈ tagList vs ↔ ∃ v ∈ vs, z ∈ v.tags.getD [] := by
  unfold tagList
  rw [mem_tagList_aux]
  simp

theorem nodup_tagList (vs : List VideoItem) : (tagList vs).Nodup := by
  unfold tagList
  have h : ∀ (ws : List VideoItem) (acc : List Str), acc.Nodup →
      (ws.foldl (fun acc v => (v.tags.getD []).foldl insertTag acc) acc).Nodup := by
    intro ws
    induction ws with
    | nil => intro acc ha; exact ha
    | cons v ws ih => intro acc ha; exact ih _ (nodup_foldl_insertTag _ acc ha)
  exact h vs [] List.nodup_nil

theorem strLtb_irrefl : ∀ a : Str, strLtb a a = false := by
  intro a
  induction a with
  | nil => rfl
  | cons x xs ih =>
    simp only [strLtb]
    rw [if_neg (Nat.lt_irrefl x), if_neg (Nat.lt_irrefl x)]
    exact ih

theorem strLtb_asymm : ∀ a b : Str, strLtb a b = true → strLtb b a = false := by
  intro a
  induction a with
  | nil =>
    intro b h
    cases b with
    | nil => simp [strLtb] at h
    | cons y ys => rfl
  | cons x xs ih =>
    intro b h
    cases b with
    | nil => simp [strLtb] at h
    | cons y ys =>
      simp only [strLtb] at h ⊢
      by_cases h1 : x < y
      · rw [if_neg (by omega), if_pos h1]
      · by_cases h2 : y < x
        · rw [if_neg h1, if_pos h2] at h
          exact absurd h (by simp)
        · rw [if_neg h1, if_neg h2] at h
          rw [if_neg h2, if_neg h1]
          exact ih ys h

theorem strLtb_trans : ∀ a b c : Str,
    strLtb a b = true → strLtb b c = true → strLtb a c = true := by
  intro a
  induction a with
  | nil =>
    intro b c hab hbc
    cases c with
    | nil =>
      cases b with
      | nil => simp [strLtb] at hab
      | cons y ys => simp [strLtb] at hbc
    | cons z zs => rfl
  | cons x xs ih =>
    intro b c hab hbc
    cases b with
    | nil => simp [strLtb] at hab
    | cons y ys =>
      cases c with
      | nil => simp [strLtb] at hbc
      | cons z zs =>
        simp only [strLtb] at hab hbc ⊢
        by_cases h1 : x < y
        · by_cases h2 : y < z
          · rw [if_pos (by omega)]
          · by_cases h3 : z < y
            · rw [if_neg h2, if_pos h3] at hbc
              exact absurd hbc (by simp)
            · have hyz : y = z := by omega
              rw [if_pos (by omega)]
        · by_cases h4 : y < x
          · rw [if_neg h1, if_pos h4] at hab
            exact absurd hab (by simp)
          · have hxy : x = y := by omega
            rw [if_neg h1, if_neg h4] at hab
            by_cases h2 : y < z
            · rw [if_pos (by omega)]
            · by_cases h3 : z < y
              · rw [if_neg h2, if_pos h3] at hbc
                exact absurd hbc (by simp)
              · have hyz : y = z := by omega
                rw [if_neg h2, if_neg h3] at hbc
                rw [if_neg (by omega), if_neg (by omega)]
                exact ih ys zs hab hbc

theorem strLtb_total : ∀ a b : Str, a ≠ b →
    strLtb a b = true ∨ strLtb b a = true := by
  intro a
  induction a with
  | nil =>
    intro b h
    cases b with
    | nil => exact absurd rfl h
    | cons y ys => exact Or.inl rfl
  | cons x xs ih =>
    intro b h
    cases b with
    | nil => exact Or.inr rfl
    | cons y ys =>
      by_cases h1 : x < y
      · left
        simp only [strLtb]
        rw [if_pos h1]
      · by_cases h2 : y < x
        · right
          simp only [strLtb]
          rw [if_pos h2]
        · have hxy : x = y := by omega
          subst hxy
          have hne : xs ≠ ys := by
            intro hh
            exact h (by rw [hh])
          rcases ih ys hne with h3 | h3
          · left
            simp only [strLtb]
            rw [if_neg (Nat.lt_irrefl x), if_neg (Nat.lt_irrefl x)]
            exact h3
          · right
            simp only [strLtb]
            rw [if_neg (Nat.lt_irrefl x), if_neg (Nat.lt_irrefl x)]
            exact h3

theorem mem_insSorted (x z : Str) : ∀ l : List Str,
    z ∈ insSorted x l ↔ z = x ∨ z ∈ l := by
  intro l
  induction l with
  | nil => simp [insSorted]
  | cons y ys ih =>
    unfold insSorted
    by_cases h : strLtb x y = true
    · rw [if_pos h]
      simp [List.mem_cons]
    · rw [if_neg h]
      simp [List.mem_cons, ih]
      tauto

theorem pairwise_insSorted (x : Str) : ∀ l : List Str,
    List.Pairwise (fun a b => strLtb a b = true) l → x ∉ l →
    List.Pairwise (fun a b => strLtb a b = true) (insSorted x l) := by
  intro l
  induction l with
  | nil =>
    intro _ _
    simp [insSorted]
  | cons y ys ih =>
    intro hp hx
    rw [List.pairwise_cons] at hp
    obtain ⟨hy, hys⟩ := hp
    unfold insSorted
    by_cases h : strLtb x y = true
    · rw [if_pos h, List.pairwise_cons]
      refine ⟨?_, List.pairwise_cons.mpr ⟨hy, hys⟩⟩
      intro a ha
      rcases List.mem_cons.mp ha with rfl | ha2
      · exact h
      · exact strLtb_trans x y a h (hy a ha2)
    · rw [if_neg h]
      have hxy : x ≠ y := fun hh => hx (by rw [hh]; exact List.mem_cons_self y ys)
      have hyx : strLtb y x = true := by
        rcases strLtb_total x y hxy with h1 | h1
        · exact absurd h1 h
        · exact h1
      rw [List.pairwise_cons]
      constructor
      · intro a ha
        rcases (mem_insSorted x a ys).mp ha with rfl | ha2
        · exact hyx
        · exact hy a ha2
      · exact ih hys (fun hh => hx (List.mem_cons_of_mem y hh))

theorem mem_sortStr (z : Str) : ∀ l : List Str, z ∈ sortStr l ↔ z ∈ l := by
  intro l
  induction l with
  | nil => simp [sortStr]
  | cons x xs ih =>
    show z ∈ insSorted x (sortStr xs) ↔ z ∈ x :: xs
    rw [mem_insSorted]
    simp [List.mem_cons, ih]

theorem pairwise_sortStr : ∀ l : List Str, l.Nodup →
    List.Pairwise (fun a b => strLtb a b = true) (sortStr l) := by
  intro l
  induction l with
  | nil =>
    intro _
    simp [sortStr]
  | cons x xs ih =>
    intro hn
    rw [List.nodup_cons] at hn
    show List.Pairwise _ (insSorted x (sortStr xs))
    apply pairwise_insSorted
    · exact ih hn.2
    · intro hmem
      exact hn.1 ((mem_sortStr x xs).mp hmem)

theorem pairwise_lt_ext : ∀ l1 l2 : List Str,
    List.Pairwise (fun a b => strLtb a b = true) l1 →
    List.Pairwise (fun a b => strLtb a b = true) l2 →
    (∀ a, a ∈ l1 ↔ a ∈ l2) → l1 = l2 := by
  intro l1
  induction l1 with
  | nil =>
    intro l2 _ _ hm
    cases l2 with
    | nil => rfl
    | cons y ys => exact absurd ((hm y).mpr (List.mem_cons_self y ys)) (List.not_mem_nil y)
  | cons x xs ih =>
    intro l2 h1 h2 hm
    cases l2 with
    | nil => exact absurd ((hm x).mp (List.mem_cons_self x xs)) (List.not_mem_nil x)
    | cons y ys =>
      rw [List.pairwise_cons] at h1 h2
      have hxy : x = y := by
        by_contra hne
        have hx2 : x ∈ y :: ys := (hm x).mp (List.mem_cons_self x xs)
        rcases List.mem_cons.mp hx2 with h | hxys
        · exact hne h
        · have hy2 : y ∈ x :: xs := (hm y).mpr (List.mem_cons_self y ys)
          rcases List.mem_cons.mp hy2 with h | hyxs
          · exact hne h.symm
          · have l1h : strLtb y x = true := h2.1 x hxys
            have l2h : strLtb x y = true := h1.1 y hyxs
            rw [strLtb_asymm x y l2h] at l1h
            cases l1h
      subst hxy
      congr 1
      refine ih ys h1.2 h2.2 ?_
      intro a
      constructor
      · intro ha
        have ha2 : a ∈ x :: ys := (hm a).mp (List.mem_cons_of_mem x ha)
        rcases List.mem_cons.mp ha2 with rfl | h
        · have hcontra : strLtb a a = true := h1.1 a ha
          rw [strLtb_irrefl] at hcontra
          cases hcontra
        · exact h
      · intro ha
        have ha2 : a ∈ x :: xs := (hm a).mpr (List.mem_cons_of_mem x ha)
        rcases List.mem_cons.mp ha2 with rfl | h
        · have hcontra : strLtb a a = true := h2.1 a ha
          rw [strLtb_irrefl] at hcontra
          cases hcontra
        · exact h

theorem uniqueTags_mem (vs : List VideoItem) (t : Str) :
    t ∈ uniqueTags vs ↔ ∃ v ∈ vs, t ∈ v.tags.getD [] := by
  unfold uniqueTags
  rw [mem_sortStr, mem_tagList]

theorem uniqueTags_pairwise (vs : List VideoItem) :
    List.Pairwise (fun a b => strLtb a b = true) (uniqueTags vs) :=
  pairwise_sortStr (tagList vs) (nodup_tagList vs)

-- ---------------------------------------------------------------------
-- Playback lifecycle lemmas (claims C6-C9 support)
-- ---------------------------------------------------------------------

theorem attachEffect_active (env : Env) (st : PlayerState) :
    (attachEffect env st).active = st.active := by
  rcases st with ⟨a, cp, ha, es, pm⟩
  rcases a with ⟨lab, ty, uri⟩
  cases ty
  · rfl
  · by_cases h1 : env.hlsSupported = true
    · simp [attachEffect, h1]
    · by_cases h2 : env.nativeHls = true <;> simp [attachEffect, h1, h2]

theorem selectSource_active (env : Env) (s : VideoSource) (st : PlayerState) :
    (selectSource env s st).active = s := by
  unfold selectSource cleanupEffect
  rw [attachEffect_active]

theorem manifestParsed_active (st : PlayerState) :
    (manifestParsed st).active = st.active := by
  unfold manifestParsed
  split <;> rfl

theorem attachedCount_manifest (st : PlayerState) :
    attachedCount (manifestParsed st) = attachedCount st := by
  unfold manifestParsed attachedCount
  split <;> rfl

theorem attach_count_le (env : Env) (st : PlayerState)
    (h1 : st.hlsAttached = none) (h2 : st.elSrc = none) :
    attachedCount (attachEffect env st) ≤ 1 := by
  rcases st with ⟨a, cp, ha, es, pm⟩
  rcases a with ⟨lab, ty, uri⟩
  simp only at h1 h2
  subst h1
  subst h2
  cases ty
  · simp [attachEffect, attachedCount]
  · by_cases e1 : env.hlsSupported = true
    · simp [attachEffect, attachedCount, e1]
    · by_cases e2 : env.nativeHls = true <;>
        simp [attachEffect, attachedCount, e1, e2]

-- ---------------------------------------------------------------------
-- Concrete example data for witnesses and counterexamples
-- ---------------------------------------------------------------------

def exItemA : VideoItem :=
  ⟨strLit ("v1"), strLit ("sample"), none, none, none, some [strLit ("a")], none, []⟩

def exItemEmptyTag : VideoItem :=
  ⟨strLit ("v1"), strLit ("first"), none, none, none, some [strLit ("")], none, []⟩

def exItemX : VideoItem :=
  ⟨strLit ("v2"), strLit ("second"), none, none, none, some [strLit ("x")], none, []⟩

def exItemTagA : VideoItem :=
  ⟨strLit ("v4"), strLit ("t4"), none, none, none, some [strLit ("a")], none, []⟩

def exItemTagB : VideoItem :=
  ⟨strLit ("v5"), strLit ("t5"), none, none, none, some [strLit ("b")], none, []⟩

def exHookA : HookItem :=
  ⟨strLit ("v1"), strLit ("Sample Video 1"), strLit ("https://e/1.mp4"),
   some [strLit ("funny"), strLit ("short")]⟩

def exHookB : HookItem :=
  ⟨strLit ("v2"), strLit ("Sample Video 2"), strLit ("https://e/2.mp4"),
   some [strLit ("music"), strLit ("live")]⟩

def exHookBA : HookItem :=
  ⟨strLit ("v1"), strLit ("T"), strLit ("s"), some [strLit ("b"), strLit ("a")]⟩

def exHookAB : HookItem :=
  ⟨strLit ("v1"), strLit ("T"), strLit ("s"), some [strLit ("a"), strLit ("b")]⟩

def exSrcMp4 : VideoSource :=
  ⟨strLit ("720p MP4"), SourceType.mp4, strLit ("https://e/v.mp4")⟩

def exSrcHls : VideoSource :=
  ⟨strLit ("Auto (HLS)"), SourceType.hls, strLit ("https://e/v.m3u8")⟩

def exVideoBoth : VideoItem :=
  ⟨strLit ("ex"), strLit ("Both"), none, none, none, none, none,
   [exSrcMp4, exSrcHls]⟩

def exVideoHls : VideoItem :=
  ⟨strLit ("exh"), strLit ("HLS only"), none, none, none, none, none,
   [exSrcHls]⟩

def envNoHls : Env := ⟨false, false⟩

def envHlsOnly : Env := ⟨true, false⟩

-- ---------------------------------------------------------------------
-- Claim theorems
-- ---------------------------------------------------------------------

/-- C1 counterexample: the claim says every item of the catalog excluded by
the filter matches none of the three text fields, for any tag selection.
With catalog `[exItemA]`, non-empty query `"sample"` and tag selection
`"b"`, the filter excludes `exItemA` even though the case-folded query is a
substring of its title. -/
theorem c1_counterexample :
    appFilter [exItemA] (strLit ("sample")) (some (strLit ("b"))) = [] ∧
    exItemA ∈ [exItemA] ∧
    specMatches (normQuery (strLit ("sample"))) exItemA = true := by
  decide

/-- C1 (amended): every item returned by the filter contains the normalized
query as a substring of its title, description, or tags joined as text; and
every item of the catalog excluded when no tag is active (equivalently,
excluded by the text stage) matches none of those three fields. -/
theorem c1_text_match (all : List VideoItem) (q : Str) (tag : Option Str)
    (v : VideoItem) :
    (v ∈ appFilter all q tag → specMatches (normQuery q) v = true) ∧
    (v ∈ all → v ∉ appFilter all q none → specMatches (normQuery q) v = false) := by
  constructor
  · intro hm
    have hs : v ∈ bySearchL all q := mem_bySearch_of_mem_appFilter hm
    by_cases hq : (normQuery q).isEmpty = true
    · have hq2 : normQuery q = [] := List.isEmpty_iff.mp hq
      rw [hq2]
      unfold specMatches
      rw [hasSub_nil_left]
      rfl
    · have hne : normQuery q ≠ [] := fun hh => hq (by rw [hh]; rfl)
      unfold bySearchL at hs
      rw [if_neg hq] at hs
      rw [← matchesSearch_eq_spec hne]
      exact (List.mem_filter.mp hs).2
  · intro hin hnot
    by_cases hq : (normQuery q).isEmpty = true
    · exfalso
      apply hnot
      show v ∈ appFilter all q none
      unfold appFilter bySearchL
      rw [if_pos hq]
      exact hin
    · have hne : normQuery q ≠ [] := fun hh => hq (by rw [hh]; rfl)
      have hms : matchesSearch (normQuery q) v = false := by
        cases hmv : matchesSearch (normQuery q) v
        · rfl
        · exfalso
          apply hnot
          show v ∈ appFilter all q none
          unfold appFilter bySearchL
          rw [if_neg hq]
          exact List.mem_filter.mpr ⟨hin, hmv⟩
      rw [← matchesSearch_eq_spec hne]
      exact hms

theorem c1_text_match_witness :
    specMatches (normQuery (strLit ("sample"))) exItemA = true ∧
    specMatches (normQuery (strLit ("zzz"))) exItemA = false :=
  ⟨(c1_text_match [exItemA] (strLit ("sample")) none exItemA).1 (by decide),
   (c1_text_match [exItemA] (strLit ("zzz")) none exItemA).2 (by decide) (by decide)⟩

/-- C2 counterexample: the claim says a query with surrounding whitespace
returns the same result as the trimmed query, for the filter. The hook
variant trims only in its emptiness guard and matches with the untrimmed
query, so the query `"1 "` (trailing space) excludes `exHookA`
("Sample Video 1") while its trimmed form `"1"` returns it. -/
theorem c2_counterexample :
    trimStr (strLit ("1 ")) = strLit ("1") ∧
    hookFilter [exHookA] (strLit ("1 ")) none = [] ∧
    hookFilter [exHookA] (strLit ("1")) none = [exHookA] := by
  decide

/-- C2 (amended): the App-level filter normalizes by trimming and case
folding, so whitespace padding and letter case never change its result; the
hook variant case-folds but does not trim the matched query, so only case
invariance holds for it. -/
theorem c2_normalization (all : List VideoItem) (videos : List HookItem)
    (q q2 : Str) (tag : Option Str) :
    appFilter all q tag = appFilter all (trimStr q) tag ∧
    (toLowerStr q = toLowerStr q2 → appFilter all q tag = appFilter all q2 tag) ∧
    (toLowerStr q = toLowerStr q2 →
      hookFilter videos q tag = hookFilter videos q2 tag) := by
  refine ⟨?_, ?_, ?_⟩
  · exact (appFilter_query_congr (normQuery_trim q).symm all tag)
  · intro h
    exact appFilter_query_congr (normQuery_lower_congr h) all tag
  · intro h
    exact hookFilter_lower_congr h videos tag

theorem c2_normalization_witness :
    appFilter [exItemA] (strLit ("  SAMple ")) none =
      appFilter [exItemA] (trimStr (strLit ("  SAMple "))) none ∧
    hookFilter [exHookA] (strLit ("VIDEO")) none =
      hookFilter [exHookA] (strLit ("video")) none :=
  ⟨(c2_normalization [exItemA] [exHookA] (strLit ("  SAMple "))
      (strLit ("x")) none).1,
   (c2_normalization [exItemA] [exHookA] (strLit ("VIDEO"))
      (strLit ("video")) none).2.2 (by decide)⟩

/-- C3 counterexample: the claim quantifies over every tag present in some
item. The empty-string tag is present in `exItemEmptyTag`, yet selecting it
is falsy in JavaScript, so the tag stage is skipped and the filter returns
the whole catalog, including `exItemX` whose tag set does not include the
empty tag. -/
theorem c3_counterexample :
    hasTag exItemEmptyTag (strLit ("")) = true ∧
    appFilter [exItemEmptyTag, exItemX] (strLit (""))
      (some (strLit (""))) = [exItemEmptyTag, exItemX] ∧
    hasTag exItemX (strLit ("")) = false := by
  decide

/-- C3 (amended): for every non-empty tag t, filtering with the empty query
and tag t returns exactly the items whose tag set includes t, a subset of
the unfiltered catalog; and with both a query and a non-empty tag, an item
is returned exactly when it passes the text stage and has the tag. -/
theorem c3_tag_stage (all : List VideoItem) (t : Str) (ht : t ≠ []) :
    (∀ v, v ∈ appFilter all [] (some t) ↔ v ∈ all ∧ hasTag v t = true) ∧
    (∀ v, v ∈ appFilter all [] (some t) → v ∈ appFilter all [] none) ∧
    (∀ q v, v ∈ appFilter all q (some t) ↔
      v ∈ bySearchL all q ∧ hasTag v t = true) := by
  have hte : ¬ (t.isEmpty = true) := by
    cases t with
    | nil => exact absurd rfl ht
    | cons c cs => simp
  have key : ∀ q v, v ∈ appFilter all q (some t) ↔
      v ∈ bySearchL all q ∧ hasTag v t = true := by
    intro q v
    have hred : appFilter all q (some t) =
        (bySearchL all q).filter (fun v => hasTag v t) := by
      show (if t.isEmpty = true then bySearchL all q
        else (bySearchL all q).filter (fun v => hasTag v t)) = _
      rw [if_neg hte]
    rw [hred]
    exact List.mem_filter
  refine ⟨fun v => key [] v, fun v hv => ?_, key⟩
  exact ((key [] v).mp hv).1

theorem c3_tag_stage_witness :
    exItemX ∈ appFilter [exItemEmptyTag, exItemX] [] (some (strLit ("x"))) :=
  ((c3_tag_stage [exItemEmptyTag, exItemX] (strLit ("x")) (by decide)).1
    exItemX).mpr (by decide)

/-- C4: filtering with the empty query and no active tag returns the
catalog unchanged, in both filter variants. -/
theorem c4_identity (all : List VideoItem) (videos : List HookItem) :
    appFilter all [] none = all ∧ hookFilter videos [] none = videos :=
  ⟨rfl, rfl⟩

/-- C5 counterexample: the claim says the derived tag vocabulary is sorted
lexicographically regardless of input order. The `ArchiveHome` derivation
(`Array.from(new Set(videos.flatMap(...)))`) keeps first-occurrence order:
tags `["b", "a"]` produce the unsorted vocabulary `["b", "a"]`, and
reordering the tags changes the output. -/
theorem c5_counterexample :
    hookTags [exHookBA] = [strLit ("b"), strLit ("a")] ∧
    strLtb (strLit ("a")) (strLit ("b")) = true ∧
    hookTags [exHookAB] = [strLit ("a"), strLit ("b")] ∧
    hookTags [exHookBA] ≠ hookTags [exHookAB] := by
  decide

/-- C5 (amended): the `UniqueTags` derivation of the main app contains
exactly the union of the items' tag sets, without duplicates, sorted
lexicographically, and is invariant under reordering of the catalog; the
alternative `ArchiveHome` derivation deduplicates in first-occurrence order
without sorting. -/
theorem c5_unique_tags (vs : List VideoItem) :
    (∀ t, t ∈ uniqueTags vs ↔ ∃ v ∈ vs, t ∈ v.tags.getD []) ∧
    (uniqueTags vs).Nodup ∧
    List.Pairwise (fun a b => strLtb a b = true) (uniqueTags vs) ∧
    (∀ vs', vs.Perm vs' → uniqueTags vs = uniqueTags vs') := by
  refine ⟨uniqueTags_mem vs, ?_, uniqueTags_pairwise vs, ?_⟩
  · apply List.Pairwise.imp ?_ (uniqueTags_pairwise vs)
    intro a b hab he
    rw [he, strLtb_irrefl] at hab
    cases hab
  · intro vs' hperm
    apply pairwise_lt_ext _ _ (uniqueTags_pairwise vs) (uniqueTags_pairwise vs')
    intro a
    rw [uniqueTags_mem, uniqueTags_mem]
    constructor
    · rintro ⟨v, hv, hva⟩
      exact ⟨v, hperm.mem_iff.mp hv, hva⟩
    · rintro ⟨v, hv, hva⟩
      exact ⟨v, hperm.mem_iff.mpr hv, hva⟩

theorem c5_unique_tags_witness :
    uniqueTags [exItemTagA, exItemTagB] = uniqueTags [exItemTagB, exItemTagA] :=
  (c5_unique_tags [exItemTagA, exItemTagB]).2.2.2
    [exItemTagB, exItemTagA] (by decide)

/-- C6: for an adaptive source with no streaming-client platform support and
no native adaptive support, the session has ready = false and no source URI
assigned to the playback element, both when the session opens on such a
source and when it switches to one. -/
theorem c6_unsupported (env : Env) (s : VideoSource)
    (h1 : env.hlsSupported = false) (h2 : env.nativeHls = false)
    (h3 : s.type = SourceType.hls) :
    (∀ (video : VideoItem) (rest : List VideoSource),
      video.sources = s :: rest →
      (openPlayer env video).canPlay = false ∧
        (openPlayer env video).elSrc = none) ∧
    (∀ st : PlayerState,
      (selectSource env s st).canPlay = false ∧
        (selectSource env s st).elSrc = none) := by
  constructor
  · intro video rest hv
    unfold openPlayer initPlayer
    rw [hv]
    show (attachEffect env ⟨s, false, none, none, false⟩).canPlay = false ∧
      (attachEffect env ⟨s, false, none, none, false⟩).elSrc = none
    unfold attachEffect
    simp [h3, h1, h2]
  · intro st
    unfold selectSource cleanupEffect attachEffect
    simp [h3, h1, h2]

theorem c6_unsupported_witness :
    (openPlayer envNoHls exVideoHls).canPlay = false ∧
    (openPlayer envNoHls exVideoHls).elSrc = none :=
  (c6_unsupported envNoHls exSrcHls rfl rfl rfl).1 exVideoHls [] rfl

/-- C7 counterexample: the claim says ready is false from the moment of
every streaming-client attach until the manifest-parsed signal. Open a
session on an mp4 source (ready becomes true), then switch to the adaptive
source: immediately after the attach the manifest is still pending, yet
ready is already true. -/
theorem c7_counterexample :
    (selectSource envHlsOnly exSrcHls
      (openPlayer envHlsOnly exVideoBoth)).pendingManifest = true ∧
    (selectSource envHlsOnly exSrcHls
      (openPlayer envHlsOnly exVideoBoth)).hlsAttached = some exSrcHls.src ∧
    (selectSource envHlsOnly exSrcHls
      (openPlayer envHlsOnly exVideoBoth)).canPlay = true := by
  decide

/-- C7 (amended): when a session opens directly on an adaptive,
client-attached source, ready is false after the attach and becomes true
only on the asynchronous manifest-parsed signal; a later switch to such a
source leaves ready at its previous value until the signal — the attach
itself never raises ready, but it does not reset a stale true either. -/
theorem c7_ready_gating (env : Env) (st : PlayerState) (s : VideoSource)
    (video : VideoItem) (rest : List VideoSource)
    (h : env.hlsSupported = true) (hs : s.type = SourceType.hls) :
    (video.sources = s :: rest →
      (openPlayer env video).canPlay = false ∧
      (openPlayer env video).pendingManifest = true ∧
      (manifestParsed (openPlayer env video)).canPlay = true) ∧
    ((selectSource env s st).canPlay = st.canPlay ∧
      (selectSource env s st).pendingManifest = true) ∧
    (st.pendingManifest = true → (manifestParsed st).canPlay = true) := by
  refine ⟨?_, ?_, ?_⟩
  · intro hv
    unfold openPlayer initPlayer
    rw [hv]
    show (attachEffect env ⟨s, false, none, none, false⟩).canPlay = false ∧ _
    unfold attachEffect manifestParsed
    simp [hs, h]
  · unfold selectSource cleanupEffect attachEffect
    simp [hs, h]
  · intro hp
    unfold manifestParsed
    rw [if_pos hp]

theorem c7_ready_gating_witness :
    (openPlayer envHlsOnly exVideoHls).canPlay = false ∧
    (selectSource envHlsOnly exSrcHls
      (openPlayer envHlsOnly exVideoBoth)).pendingManifest = true :=
  ⟨((c7_ready_gating envHlsOnly (openPlayer envHlsOnly exVideoBoth) exSrcHls
      exVideoHls [] rfl rfl).1 rfl).1,
   ((c7_ready_gating envHlsOnly (openPlayer envHlsOnly exVideoBoth) exSrcHls
      exVideoHls [] rfl rfl).2.1).2⟩

/-- C8: every source change runs the cleanup (destroying the client
instance and detaching the element source) before the new attach, so every
reachable state of an open session has at most one attached playback
resource, and closing the session releases everything. -/
theorem c8_single_resource :
    (∀ (env : Env) (video : VideoItem) (st : PlayerState),
        Reachable env video st → attachedCount st ≤ 1) ∧
    (∀ st : PlayerState, attachedCount (closePlayer st) = 0) ∧
    (∀ (env : Env) (s : VideoSource) (st : PlayerState),
        selectSource env s st =
          attachEffect env (cleanupEffect { st with active := s }) ∧
        (cleanupEffect st).hlsAttached = none ∧
        (cleanupEffect st).elSrc = none) := by
  refine ⟨?_, ?_, ?_⟩
  · intro env video st h
    induction h with
    | init => exact attach_count_le env (initPlayer video) rfl rfl
    | select s st hmem hr ih => exact attach_count_le env _ rfl rfl
    | parsed st hr ih =>
      rw [attachedCount_manifest]
      exact ih
  · intro st
    rfl
  · intro env s st
    exact ⟨rfl, rfl, rfl⟩

theorem c8_single_resource_witness :
    attachedCount (selectSource envHlsOnly exSrcHls
      (openPlayer envHlsOnly exVideoBoth)) ≤ 1 :=
  c8_single_resource.1 envHlsOnly exVideoBoth _
    (Reachable.select exSrcHls _ (by decide) Reachable.init)

/-- C9: a playback session is created with activeSource = sources[0] and
ready = false, and in every reachable state of the session the active
source is a member of the item's source list. -/
theorem c9_active_source (video : VideoItem) :
    (∀ (s : VideoSource) (rest : List VideoSource),
      video.sources = s :: rest →
      (initPlayer video).active = s ∧ (initPlayer video).canPlay = false) ∧
    (∀ (env : Env) (st : PlayerState), video.sources ≠ [] →
      Reachable env video st → st.active ∈ video.sources) := by
  constructor
  · intro s rest hv
    unfold initPlayer
    rw [hv]
    exact ⟨rfl, rfl⟩
  · intro env st hne hr
    induction hr with
    | init =>
      show (attachEffect env (initPlayer video)).active ∈ video.sources
      rw [attachEffect_active]
      unfold initPlayer
      cases hv : video.sources with
      | nil => exact absurd hv hne
      | cons s rest => exact List.mem_cons_self s rest
    | select s st hmem hr ih =>
      rw [selectSource_active]
      exact hmem
    | parsed st hr ih =>
      rw [manifestParsed_active]
      exact ih

theorem c9_active_source_witness :
    (initPlayer exVideoBoth).active = exSrcMp4 ∧
    (initPlayer exVideoBoth).canPlay = false ∧
    (selectSource envHlsOnly exSrcHls
      (openPlayer envHlsOnly exVideoBoth)).active ∈ exVideoBoth.sources :=
  ⟨((c9_active_source exVideoBoth).1 exSrcMp4 [exSrcHls] rfl).1,
   ((c9_active_source exVideoBoth).1 exSrcMp4 [exSrcHls] rfl).2,
   (c9_active_source exVideoBoth).2 envHlsOnly _ (by decide)
     (Reachable.select exSrcHls _ (by decide) Reachable.init)⟩

/-- C10: the tag stage compares the active tag against an item's tags by
exact string equality (no trimming, no case folding), and an item without a
tags field is excluded whenever a (truthy) tag filter is active — in both
filter variants. -/
theorem c10_exact_tag (t : Str) (ht : t ≠ []) :
    (∀ (videos : List HookItem) (q : Str) (v : HookItem),
        v ∈ hookFilter videos q (some t) ↔
          v ∈ hookSearch videos q ∧ ∃ ts, v.tags = some ts ∧ t ∈ ts) ∧
    (∀ (videos : List HookItem) (q : Str) (v : HookItem), v.tags = none →
        v ∉ hookFilter videos q (some t)) ∧
    (∀ (all : List VideoItem) (q : Str) (v : VideoItem),
        v ∈ appFilter all q (some t) ↔
          v ∈ bySearchL all q ∧ ∃ ts, v.tags = some ts ∧ t ∈ ts) := by
  have hte : ¬ (t.isEmpty = true) := by
    cases t with
    | nil => exact absurd rfl ht
    | cons c cs => simp
  have hookTag_iff : ∀ v : HookItem,
      hookHasTag v t = true ↔ ∃ ts, v.tags = some ts ∧ t ∈ ts := by
    intro v
    unfold hookHasTag
    cases hv : v.tags with
    | none => simp
    | some ts => simp [hasStr_iff]
  have appTag_iff : ∀ v : VideoItem,
      hasTag v t = true ↔ ∃ ts, v.tags = some ts ∧ t ∈ ts := by
    intro v
    unfold hasTag
    cases hv : v.tags with
    | none => simp
    | some ts => simp [hasStr_iff]
  have hookKey : ∀ (videos : List HookItem) (q : Str) (v : HookItem),
      v ∈ hookFilter videos q (some t) ↔
        v ∈ hookSearch videos q ∧ ∃ ts, v.tags = some ts ∧ t ∈ ts := by
    intro videos q v
    have hred : hookFilter videos q (some t) =
        (hookSearch videos q).filter (fun v => hookHasTag v t) := by
      show (if t.isEmpty = true then hookSearch videos q
        else (hookSearch videos q).filter (fun v => hookHasTag v t)) = _
      rw [if_neg hte]
    rw [hred, List.mem_filter, hookTag_iff]
  refine ⟨hookKey, ?_, ?_⟩
  · intro videos q v hv hmem
    rcases ((hookKey videos q v).mp hmem).2 with ⟨ts, hts, _⟩
    rw [hv] at hts
    cases hts
  · intro all q v
    have hred : appFilter all q (some t) =
        (bySearchL all q).filter (fun v => hasTag v t) := by
      show (if t.isEmpty = true then bySearchL all q
        else (bySearchL all q).filter (fun v => hasTag v t)) = _
      rw [if_neg hte]
    rw [hred, List.mem_filter, appTag_iff]

theorem c10_exact_tag_witness :
    exHookB ∈ hookFilter [exHookA, exHookB] (strLit ("")) (some (strLit ("music"))) :=
  ((c10_exact_tag (strLit ("music")) (by decide)).1 [exHookA, exHookB]
    (strLit ("")) exHookB).mpr
    ⟨by decide, [strLit ("music"), strLit ("live")], rfl, by decide⟩

end Holo
